import Mathlib

/-!
Shallow embedding of the scorecard-metrics scripts (lift.py, ks.py, auc.py) and
proofs of the specification claims about them.

Numeric conventions: the scripts compute with pandas/NumPy floats.  Counts are
embedded as integers; derived ratios are embedded as exact rationals, and where
the scripts can produce the IEEE special values NaN and ±inf (division by zero,
`fillna`) the value type `PVal` records them explicitly.
-/

namespace Pinfen

/-- Pandas cell values as the scripts use them: a finite rational, NaN, or a
signed infinity. -/
inductive PVal where
  | num (q : ℚ)
  | nan
  | inf
  | ninf
  deriving Repr, DecidableEq

/-- Division of two finite values with IEEE-754 semantics, as pandas performs it:
a nonzero numerator over zero gives a signed infinity and zero over zero gives NaN. -/
def pandasDiv (a b : ℚ) : PVal :=
  if b = 0 then
    if a = 0 then .nan else if 0 < a then .inf else .ninf
  else .num (a / b)

/-- Division on pandas values: NaN propagates, an infinity over an infinity is NaN,
a finite value over an infinity is 0. -/
def PVal.div : PVal → PVal → PVal
  | .nan, _ => .nan
  | .num _, .nan => .nan
  | .inf, .nan => .nan
  | .ninf, .nan => .nan
  | .num a, .num b => pandasDiv a b
  | .num _, .inf => .num 0
  | .num _, .ninf => .num 0
  | .inf, .num b => if b < 0 then .ninf else .inf
  | .ninf, .num b => if b < 0 then .inf else .ninf
  | .inf, .inf => .nan
  | .inf, .ninf => .nan
  | .ninf, .inf => .nan
  | .ninf, .ninf => .nan

/-- The effect of `fillna(0)` on one cell: NaN becomes 0, all other values stay. -/
def PVal.fillna0 : PVal → PVal
  | .nan => .num 0
  | v => v

/-- One row of the scorecard table of lift.py and auc.py: score-range label
(评分区间), interval midpoint (区间中点), population (区间人数), given default
probability in percent (违约概率(%)), and default count (违约人数). -/
structure ScoreRow where
  label : String
  midpoint : ℤ
  population : ℤ
  defaultProbPct : ℚ
  defaultCount : ℤ
  deriving Repr, DecidableEq

/-- The hardcoded scorecard table (`data` in lift.py, `scorecard_data` in the
other scripts): fourteen bins. -/
def data : List ScoreRow :=
  [⟨"300–350", 325, 49, 99.78, 49⟩,
   ⟨"350–400", 375, 165, 98.78, 163⟩,
   ⟨"400–450", 425, 441, 93.49, 412⟩,
   ⟨"450–500", 475, 919, 71.90, 662⟩,
   ⟨"500–550", 525, 1499, 31.35, 470⟩,
   ⟨"550–600", 575, 1915, 7.53, 144⟩,
   ⟨"600–650", 625, 1915, 1.43, 27⟩,
   ⟨"650–700", 675, 1499, 0.26, 4⟩,
   ⟨"700–750", 725, 919, 0.05, 0⟩,
   ⟨"750–800", 775, 441, 0.01, 0⟩,
   ⟨"800–850", 825, 165, 0.00, 0⟩,
   ⟨"850–900", 875, 49, 0.00, 0⟩,
   ⟨"900–950", 925, 11, 0.00, 0⟩,
   ⟨"950–1000", 975, 2, 0.00, 0⟩]

/-- total_samples: the sum of the 区间人数 column. -/
def total_samples (rows : List ScoreRow) : ℤ :=
  (rows.map (·.population)).sum

/-- total_bad_count: the sum of the 违约人数 column. -/
def total_bad_count (rows : List ScoreRow) : ℤ :=
  (rows.map (·.defaultCount)).sum

/-- total_bad_rate: overall bad rate, total defaults over total samples. -/
def total_bad_rate (rows : List ScoreRow) : PVal :=
  pandasDiv (total_bad_count rows) (total_samples rows)

/-- The 区间坏账率 column as first computed (before `fillna`): per-row default
count over population. -/
def badRateColPre (rows : List ScoreRow) : List PVal :=
  rows.map fun r => pandasDiv r.defaultCount r.population

/-- The Lift提升度 column as first computed (before `fillna`): per-row bad rate
over the overall bad rate. -/
def liftColPre (rows : List ScoreRow) : List PVal :=
  rows.map fun r => (pandasDiv r.defaultCount r.population).div (total_bad_rate rows)

/-- The 区间坏账率 column after `df.fillna(0)`. -/
def badRateCol (rows : List ScoreRow) : List PVal :=
  (badRateColPre rows).map PVal.fillna0

/-- The Lift提升度 column after `df.fillna(0)`. -/
def liftCol (rows : List ScoreRow) : List PVal :=
  (liftColPre rows).map PVal.fillna0

/-! ### Bin table loader and its validation check (lift.py, section 1) -/

/-- The raw parallel-field table, the `data` dict of lift.py before validation:
one list per dict key, in dict order. -/
structure RawTable where
  labels : List String
  midpoints : List ℤ
  populations : List ℤ
  defaultProbPcts : List ℚ
  defaultCounts : List ℤ
  deriving Repr

/-- The single error kind of the scripts: the parallel fields of the input table
have unequal lengths.  The error value carries the per-field lengths, as the
message of the `ValueError` raised by lift.py does. -/
structure DataShapeError where
  lengths : List (String × ℕ)
  deriving Repr, DecidableEq

/-- field_lengths: the length of each field of the table, keyed by field name,
in dict order. -/
def field_lengths (t : RawTable) : List (String × ℕ) :=
  [("评分区间", t.labels.length),
   ("区间中点", t.midpoints.length),
   ("区间人数", t.populations.length),
   ("违约概率(%)", t.defaultProbPcts.length),
   ("违约人数", t.defaultCounts.length)]

/-- Rows of the DataFrame built from the parallel fields: pointwise zip of the
five columns (pandas requires the lengths to be equal; the zip stops at the
shortest column, which is only reached after validation succeeds). -/
def zipRows : List String → List ℤ → List ℤ → List ℚ → List ℤ → List ScoreRow
  | l :: ls, m :: ms, p :: ps, q :: qs, d :: ds =>
    ⟨l, m, p, q, d⟩ :: zipRows ls ms ps qs ds
  | _, _, _, _, _ => []

/-- The bin-table loader of lift.py: compute the field lengths, raise when the
number of distinct lengths is not one (`len(set(field_lengths.values())) != 1`),
and otherwise build the DataFrame rows. -/
def loadTable (t : RawTable) : Except DataShapeError (List ScoreRow) :=
  if ((field_lengths t).map Prod.snd).dedup.length = 1 then
    .ok (zipRows t.labels t.midpoints t.populations t.defaultProbPcts t.defaultCounts)
  else
    .error ⟨field_lengths t⟩

/-- The validation condition in the words of the spec: all parallel fields have
equal length. -/
def lengthsAllEqual (t : RawTable) : Prop :=
  t.labels.length = t.midpoints.length ∧
  t.midpoints.length = t.populations.length ∧
  t.populations.length = t.defaultProbPcts.length ∧
  t.defaultProbPcts.length = t.defaultCounts.length

instance (t : RawTable) : Decidable (lengthsAllEqual t) := by
  unfold lengthsAllEqual; infer_instance

/-! ### Generic pandas helpers: running sums and idxmax -/

/-- Running sum of a list starting from an accumulator; `cumsumFrom 0` is the
pandas `cumsum`. -/
def cumsumFrom (acc : ℚ) : List ℚ → List ℚ
  | [] => []
  | x :: xs => (acc + x) :: cumsumFrom (acc + x) xs

/-- Pandas `cumsum`: running sums of the column. -/
def cumsum (l : List ℚ) : List ℚ := cumsumFrom 0 l

/-- Pandas `idxmax`: the position of the first occurrence of the maximum value. -/
def idxmax : List ℚ → ℕ
  | [] => 0
  | [_] => 0
  | x :: y :: xs =>
    if x < (y :: xs).getD (idxmax (y :: xs)) 0 then idxmax (y :: xs) + 1 else 0

/-! ### The KS pipeline (ks.py) -/

/-- One row of the scorecard table of ks.py: label, midpoint, population and
default count (ks.py's dict has no probability column). -/
structure ScoreBin where
  label : String
  midpoint : ℤ
  population : ℤ
  defaultCount : ℤ
  deriving Repr, DecidableEq

/-- 好客户数: the non-default count of a bin, population minus default count. -/
def goodCount (b : ScoreBin) : ℤ := b.population - b.defaultCount

/-- total_bad: sum of the 违约人数 column of ks.py. -/
def total_bad (bins : List ScoreBin) : ℤ := (bins.map (·.defaultCount)).sum

/-- total_good: sum of the 好客户数 column of ks.py. -/
def total_good (bins : List ScoreBin) : ℤ := (bins.map goodCount).sum

/-- BadPct: a bin's share of all defaults. -/
def badPct (bins : List ScoreBin) (b : ScoreBin) : ℚ :=
  (b.defaultCount : ℚ) / (total_bad bins : ℚ)

/-- GoodPct: a bin's share of all non-defaults. -/
def goodPct (bins : List ScoreBin) (b : ScoreBin) : ℚ :=
  (goodCount b : ℚ) / (total_good bins : ℚ)

/-- Cum_BadPct: cumulative default fraction column. -/
def cumBadPct (bins : List ScoreBin) : List ℚ := cumsum (bins.map (badPct bins))

/-- Cum_GoodPct: cumulative non-default fraction column. -/
def cumGoodPct (bins : List ScoreBin) : List ℚ := cumsum (bins.map (goodPct bins))

/-- KS column: absolute difference of the two cumulative fractions, per bin. -/
def ksCol (bins : List ScoreBin) : List ℚ :=
  List.zipWith (fun a b => |a - b|) (cumBadPct bins) (cumGoodPct bins)

/-- max_ks_idx: index of the first occurrence of the maximal KS value. -/
def max_ks_idx (bins : List ScoreBin) : ℕ := idxmax (ksCol bins)

/-- max_ks_value: the maximal KS value. -/
def max_ks_value (bins : List ScoreBin) : ℚ :=
  (ksCol bins).getD (max_ks_idx bins) 0

/-- max_ks_interval: the range label of the bin attaining the maximal KS value. -/
def max_ks_interval (bins : List ScoreBin) : String :=
  (bins.map (·.label)).getD (max_ks_idx bins) ""

/-- max_ks_score: the midpoint of the bin attaining the maximal KS value. -/
def max_ks_score (bins : List ScoreBin) : ℤ :=
  (bins.map (·.midpoint)).getD (max_ks_idx bins) 0

/-! ### The cumulative-Lift pipeline (lift.py, subplot 4) -/

/-- df_sorted: the table sorted ascending by 区间中点. -/
def df_sorted (rows : List ScoreRow) : List ScoreRow :=
  rows.mergeSort (fun a b => a.midpoint ≤ b.midpoint)

/-- 累计样本数: running sum of the population column of the sorted table. -/
def cumSamples (rows : List ScoreRow) : List ℚ :=
  cumsum ((df_sorted rows).map fun r => (r.population : ℚ))

/-- 累计违约人数: running sum of the default-count column of the sorted table. -/
def cumDefaults (rows : List ScoreRow) : List ℚ :=
  cumsum ((df_sorted rows).map fun r => (r.defaultCount : ℚ))

/-- 累计坏账率: cumulative defaults over cumulative population, per row of the
sorted table. -/
def cumBadRateCol (rows : List ScoreRow) : List PVal :=
  List.zipWith pandasDiv (cumDefaults rows) (cumSamples rows)

/-- 累计Lift: cumulative bad rate over the overall bad rate, per row of the
sorted table. -/
def cumLiftCol (rows : List ScoreRow) : List PVal :=
  (cumBadRateCol rows).map fun v => v.div (total_bad_rate rows)

/-! ### The AUC pipeline (auc.py) -/

/-- 违约概率: the given default probability of a bin as a fraction. -/
def defaultProb (r : ScoreRow) : ℚ := r.defaultProbPct / 100

/-- 非违约人数: the non-default count of a bin. -/
def nonDefaultCount (r : ScoreRow) : ℤ := r.population - r.defaultCount

/-- One expanded sample of auc.py: true label (true = defaulted), predicted
score, and sample weight. -/
structure Sample where
  label : Bool
  score : ℚ
  weight : ℚ
  deriving Repr, DecidableEq

/-- The loop body of auc.py for one bin: default_count positive samples followed
by non_default_count negative samples, each with the bin's default probability
as predicted score and weight 1.  A Python list repetition `[x] * n` with
negative `n` is empty, exactly as `Int.toNat` sends negatives to 0. -/
def expandRow (r : ScoreRow) : List Sample :=
  List.replicate r.defaultCount.toNat ⟨true, defaultProb r, 1⟩ ++
  List.replicate (nonDefaultCount r).toNat ⟨false, defaultProb r, 1⟩

/-- The full expansion loop of auc.py: y_true, y_pred_prob and sample_weights as
one list of records. -/
def expandSamples (rows : List ScoreRow) : List Sample :=
  rows.flatMap expandRow

/-- The positive (defaulted) samples. -/
def positives (samples : List Sample) : List Sample := samples.filter (·.label)

/-- The negative (non-defaulted) samples. -/
def negatives (samples : List Sample) : List Sample :=
  samples.filter fun s => !s.label

/-- Modelled from the spec: the contribution of one (positive, negative) pair to
the AUC — 1 when the positive outranks the negative, 1/2 on a tie, else 0
(§4.2 of the spec). -/
def pairScore (ps ns : ℚ) : ℚ := if ns < ps then 1 else if ps = ns then 1/2 else 0

/-- Modelled from the spec: `roc_auc_score` without sample weights is external
library code (sklearn), not part of this repository.  Per §4.2 the AUC is the
probability that a randomly chosen defaulted sample receives a strictly higher
predicted score than a randomly chosen non-defaulted one, ties counting one
half: the pair contributions summed over all (positive, negative) pairs,
divided by the number of such pairs. -/
def auc_without_weight (samples : List Sample) : ℚ :=
  ((positives samples).map fun p =>
    ((negatives samples).map fun n => pairScore p.score n.score).sum).sum
  / ((positives samples).length * (negatives samples).length)

/-- Modelled from the spec: `roc_auc_score` with sample weights is external
library code (sklearn), not part of this repository.  Each (positive, negative)
pair is weighted by the product of the two sample weights, and the total is
normalized by the product of total positive and total negative weight. -/
def auc_with_weight (samples : List Sample) : ℚ :=
  ((positives samples).map fun p =>
    ((negatives samples).map fun n =>
      p.weight * n.weight * pairScore p.score n.score).sum).sum
  / (((positives samples).map (·.weight)).sum * ((negatives samples).map (·.weight)).sum)

/-! ### Hypothesis predicates used by the claims -/

/-- Counts are non-negative: every bin has non-negative population and
default count. -/
def NonnegCounts (bins : List ScoreBin) : Prop :=
  ∀ b ∈ bins, 0 ≤ b.population ∧ 0 ≤ b.defaultCount

instance (bins : List ScoreBin) : Decidable (NonnegCounts bins) := by
  unfold NonnegCounts; infer_instance

/-- Counts are consistent: every bin's default count lies between 0 and its
population. -/
def ValidCounts (bins : List ScoreBin) : Prop :=
  ∀ b ∈ bins, 0 ≤ b.defaultCount ∧ b.defaultCount ≤ b.population

instance (bins : List ScoreBin) : Decidable (ValidCounts bins) := by
  unfold ValidCounts; infer_instance

/-- Row counts are consistent: every row's default count lies between 0 and its
population. -/
def ValidRows (rows : List ScoreRow) : Prop :=
  ∀ r ∈ rows, 0 ≤ r.defaultCount ∧ r.defaultCount ≤ r.population

instance (rows : List ScoreRow) : Decidable (ValidRows rows) := by
  unfold ValidRows; infer_instance

/-- All sample weights are 1. -/
def UnitWeights (samples : List Sample) : Prop := ∀ s ∈ samples, s.weight = 1

instance (samples : List Sample) : Decidable (UnitWeights samples) := by
  unfold UnitWeights; infer_instance

/-! ### Concrete inputs used by witnesses and counterexamples -/

/-- A mismatched loader table: the label field has 13 entries, the others 14. -/
def mismatchTable : RawTable :=
  ⟨List.replicate 13 "x", List.replicate 14 0, List.replicate 14 0,
   List.replicate 14 0, List.replicate 14 0⟩

/-- A well-formed two-bin KS table. -/
def ksWitnessBins : List ScoreBin :=
  [⟨"300–350", 325, 2, 1⟩, ⟨"350–400", 375, 3, 1⟩]

/-- Non-negative counts with positive totals but a default count exceeding its
bin population. -/
def ksBadBins : List ScoreBin :=
  [⟨"300–350", 325, 0, 5⟩, ⟨"350–400", 375, 10, 0⟩]

/-- A small lift table given out of midpoint order, with one zero-population bin. -/
def liftWitnessRows : List ScoreRow :=
  [⟨"350–400", 375, 4, 50, 2⟩, ⟨"300–350", 325, 2, 100, 2⟩, ⟨"400–450", 425, 0, 0, 0⟩]

/-- A small sample list with unit weights. -/
def aucWitnessSamples : List Sample :=
  [⟨true, 1/2, 1⟩, ⟨false, 1/4, 1⟩, ⟨false, 1/2, 1⟩]

/-! ### Helper lemmas -/

theorem div_nan (v : PVal) : PVal.div .nan v = .nan := by
  cases v <;> rfl

theorem cumsumFrom_length : ∀ (l : List ℚ) (acc : ℚ),
    (cumsumFrom acc l).length = l.length
  | [], _ => rfl
  | x :: xs, acc => by simp [cumsumFrom, cumsumFrom_length xs (acc + x)]

theorem cumsum_length (l : List ℚ) : (cumsum l).length = l.length :=
  cumsumFrom_length l 0

theorem cumsumFrom_getElem? : ∀ (l : List ℚ) (acc : ℚ) (k : ℕ), k < l.length →
    (cumsumFrom acc l)[k]? = some (acc + (l.take (k + 1)).sum)
  | [], _, k, hk => by simp at hk
  | x :: xs, acc, 0, _ => by simp [cumsumFrom]
  | x :: xs, acc, k + 1, hk => by
    have ih := cumsumFrom_getElem? xs (acc + x) k (by simpa using hk)
    simp [cumsumFrom, ih, add_assoc]

theorem cumsum_getElem? (l : List ℚ) (k : ℕ) (hk : k < l.length) :
    (cumsum l)[k]? = some ((l.take (k + 1)).sum) := by
  rw [cumsum, cumsumFrom_getElem? l 0 k hk, zero_add]

theorem sum_map_div (l : List ℚ) (c : ℚ) :
    (l.map fun x => x / c).sum = l.sum / c := by
  induction l with
  | nil => simp
  | cons x xs ih => simp [ih, add_div]

theorem intCast_listSum (l : List ℤ) :
    ((l.sum : ℤ) : ℚ) = (l.map fun x : ℤ => (x : ℚ)).sum := by
  induction l with
  | nil => simp
  | cons x xs ih => simp [ih]

theorem getElem?_zipWith_some {α β γ : Type*} {f : α → β → γ} {l₁ : List α}
    {l₂ : List β} {k : ℕ} {a : α} {b : β}
    (h₁ : l₁[k]? = some a) (h₂ : l₂[k]? = some b) :
    (List.zipWith f l₁ l₂)[k]? = some (f a b) := by
  rw [List.getElem?_zipWith, h₁, h₂]

theorem idxmax_lt_length : ∀ (l : List ℚ), l ≠ [] → idxmax l < l.length
  | [_], _ => by simp [idxmax]
  | x :: y :: xs, _ => by
    simp only [idxmax]
    split
    · have ih := idxmax_lt_length (y :: xs) (by simp)
      simpa [Nat.succ_lt_succ_iff] using ih
    · simp

theorem getD_le_idxmax : ∀ (l : List ℚ) (i : ℕ), i < l.length →
    l.getD i 0 ≤ l.getD (idxmax l) 0
  | [], i, hi => by simp at hi
  | [x], i, hi => by
    have : i = 0 := by simpa using hi
    subst this
    simp [idxmax]
  | x :: y :: xs, 0, _ => by
    simp only [idxmax]
    split
    · next hlt =>
      rw [List.getD_cons_succ, List.getD_cons_zero]
      exact le_of_lt hlt
    · simp
  | x :: y :: xs, i + 1, hi => by
    have ih := getD_le_idxmax (y :: xs) i (by simpa using hi)
    simp only [idxmax]
    split
    · next hlt => rw [List.getD_cons_succ, List.getD_cons_succ]; exact ih
    · next hge =>
      rw [List.getD_cons_succ, List.getD_cons_zero]
      exact le_trans ih (le_of_not_lt hge)

theorem idxmax_first : ∀ (l : List ℚ) (i : ℕ), i < idxmax l →
    l.getD i 0 < l.getD (idxmax l) 0
  | [], i, h => by simp [idxmax] at h
  | [_], i, h => by simp [idxmax] at h
  | x :: y :: xs, i, h => by
    by_cases hc : x < (y :: xs).getD (idxmax (y :: xs)) 0
    · rw [idxmax, if_pos hc] at h ⊢
      rw [List.getD_cons_succ]
      match i, h with
      | 0, _ => rw [List.getD_cons_zero]; exact hc
      | j + 1, h =>
        rw [List.getD_cons_succ]
        exact idxmax_first (y :: xs) j (by omega)
    · rw [idxmax, if_neg hc] at h
      omega

theorem dedupFive (a b c d e : ℕ) :
    [a, b, c, d, e].dedup.length = 1 ↔ (a = b ∧ b = c ∧ c = d ∧ d = e) := by
  rw [← List.card_toFinset, Finset.card_eq_one]
  constructor
  · rintro ⟨x, hx⟩
    have key : ∀ y ∈ ([a, b, c, d, e] : List ℕ), y = x := by
      intro y hy
      have hmem : y ∈ ({x} : Finset ℕ) := by
        rw [← hx]
        exact List.mem_toFinset.mpr hy
      simpa using hmem
    have ha := key a (by simp)
    have hb := key b (by simp)
    have hc := key c (by simp)
    have hd := key d (by simp)
    have he := key e (by simp)
    omega
  · rintro ⟨rfl, rfl, rfl, rfl⟩
    exact ⟨a, by simp⟩

theorem take_sum_div_bounds (l : List ℚ) (hpos : ∀ x ∈ l, 0 ≤ x)
    (hT : 0 < l.sum) (n : ℕ) :
    0 ≤ (l.take n).sum / l.sum ∧ (l.take n).sum / l.sum ≤ 1 := by
  have htake : 0 ≤ (l.take n).sum :=
    List.sum_nonneg fun x hx => hpos x (List.take_subset n l hx)
  have hdrop : 0 ≤ (l.drop n).sum :=
    List.sum_nonneg fun x hx => hpos x (List.drop_subset n l hx)
  have hsplit := List.sum_take_add_sum_drop l n
  constructor
  · exact div_nonneg htake (le_of_lt hT)
  · rw [div_le_one hT]
    linarith

theorem total_bad_cast (bins : List ScoreBin) :
    ((total_bad bins : ℤ) : ℚ) = (bins.map fun b => (b.defaultCount : ℚ)).sum := by
  rw [total_bad, intCast_listSum, List.map_map]
  rfl

theorem total_good_cast (bins : List ScoreBin) :
    ((total_good bins : ℤ) : ℚ) = (bins.map fun b => (goodCount b : ℚ)).sum := by
  rw [total_good, intCast_listSum, List.map_map]
  rfl

theorem cumBadPct_getElem? (bins : List ScoreBin) (k : ℕ) (hk : k < bins.length) :
    (cumBadPct bins)[k]? = some
      (((bins.take (k + 1)).map fun b => (b.defaultCount : ℚ)).sum / (total_bad bins : ℚ)) := by
  unfold cumBadPct
  rw [cumsum_getElem? _ k (by simpa using hk)]
  congr 1
  have hmap : bins.map (badPct bins)
      = (bins.map fun b => (b.defaultCount : ℚ)).map fun x => x / (total_bad bins : ℚ) := by
    rw [List.map_map]
    rfl
  rw [hmap, ← List.map_take, sum_map_div, List.map_take]

theorem cumGoodPct_getElem? (bins : List ScoreBin) (k : ℕ) (hk : k < bins.length) :
    (cumGoodPct bins)[k]? = some
      (((bins.take (k + 1)).map fun b => (goodCount b : ℚ)).sum / (total_good bins : ℚ)) := by
  unfold cumGoodPct
  rw [cumsum_getElem? _ k (by simpa using hk)]
  congr 1
  have hmap : bins.map (goodPct bins)
      = (bins.map fun b => (goodCount b : ℚ)).map fun x => x / (total_good bins : ℚ) := by
    rw [List.map_map]
    rfl
  rw [hmap, ← List.map_take, sum_map_div, List.map_take]

theorem ksCol_getElem? (bins : List ScoreBin) (k : ℕ) (hk : k < bins.length) :
    (ksCol bins)[k]? = some
      |((bins.take (k + 1)).map fun b => (b.defaultCount : ℚ)).sum / (total_bad bins : ℚ)
        - ((bins.take (k + 1)).map fun b => (goodCount b : ℚ)).sum / (total_good bins : ℚ)| :=
  getElem?_zipWith_some (cumBadPct_getElem? bins k hk) (cumGoodPct_getElem? bins k hk)

theorem ksCol_length (bins : List ScoreBin) : (ksCol bins).length = bins.length := by
  simp [ksCol, cumBadPct, cumGoodPct, cumsum_length]

end Pinfen

namespace Pinfen

/-- C3: the KS pipeline computes per bin the cumulative default fraction as a
running sum of default counts over the total default count, the cumulative
non-default fraction likewise, the separation as their absolute difference, and
reports the maximal separation with first-occurrence tie-breaking together with
that bin's range label and midpoint. -/
theorem ks_pipeline_spec (bins : List ScoreBin) (hne : bins ≠ []) :
    (∀ k, k < bins.length → (cumBadPct bins)[k]? =
      some (((bins.take (k + 1)).map fun b => (b.defaultCount : ℚ)).sum / (total_bad bins : ℚ))) ∧
    (∀ k, k < bins.length → (cumGoodPct bins)[k]? =
      some (((bins.take (k + 1)).map fun b => (goodCount b : ℚ)).sum / (total_good bins : ℚ))) ∧
    (∀ k, k < bins.length → (ksCol bins)[k]? =
      some |((bins.take (k + 1)).map fun b => (b.defaultCount : ℚ)).sum / (total_bad bins : ℚ)
        - ((bins.take (k + 1)).map fun b => (goodCount b : ℚ)).sum / (total_good bins : ℚ)|) ∧
    max_ks_idx bins < bins.length ∧
    (∀ k, k < bins.length → (ksCol bins).getD k 0 ≤ max_ks_value bins) ∧
    (∀ k, k < max_ks_idx bins → (ksCol bins).getD k 0 < max_ks_value bins) ∧
    (∃ b, bins[max_ks_idx bins]? = some b ∧
      max_ks_interval bins = b.label ∧ max_ks_score bins = b.midpoint) := by
  have hlen := ksCol_length bins
  have hpos : 0 < bins.length := List.length_pos.mpr hne
  have hksne : ksCol bins ≠ [] := List.length_pos.mp (hlen ▸ hpos)
  have hidx : max_ks_idx bins < bins.length := by
    have h := idxmax_lt_length (ksCol bins) hksne
    rwa [hlen] at h
  refine ⟨fun k hk => cumBadPct_getElem? bins k hk,
    fun k hk => cumGoodPct_getElem? bins k hk,
    fun k hk => ksCol_getElem? bins k hk,
    hidx,
    fun k hk => getD_le_idxmax (ksCol bins) k (by rwa [hlen]),
    fun k hk => idxmax_first (ksCol bins) k hk,
    ⟨bins[max_ks_idx bins], List.getElem?_eq_getElem hidx, ?_, ?_⟩⟩
  · unfold max_ks_interval
    rw [List.getD_eq_getElem?_getD, List.getElem?_map, List.getElem?_eq_getElem hidx]
    rfl
  · unfold max_ks_score
    rw [List.getD_eq_getElem?_getD, List.getElem?_map, List.getElem?_eq_getElem hidx]
    rfl

/-- C3 witness: the theorem applied to a concrete two-bin table. -/
theorem ks_pipeline_spec_witness :
    ksWitnessBins ≠ [] ∧ max_ks_idx ksWitnessBins < ksWitnessBins.length ∧
    max_ks_interval ksWitnessBins
      = (ksWitnessBins.map (·.label)).getD (max_ks_idx ksWitnessBins) "" :=
  ⟨by decide, (ks_pipeline_spec ksWitnessBins (by decide)).2.2.2.1, rfl⟩

/-- C8 counterexample: a table with non-negative counts and positive total
default and non-default counts on which the reported maximum KS value is 2. -/
theorem max_ks_unit_counterexample :
    NonnegCounts ksBadBins ∧ 0 < total_bad ksBadBins ∧ 0 < total_good ksBadBins ∧
    1 < max_ks_value ksBadBins := by
  refine ⟨by decide, by decide, by decide, ?_⟩
  norm_num [max_ks_value, max_ks_idx, ksCol, cumBadPct, cumGoodPct, cumsum, cumsumFrom,
    badPct, goodPct, goodCount, total_bad, total_good, idxmax, ksBadBins]

/-- C8 amended: when additionally every bin's default count lies between 0 and
its population, the reported maximum KS value lies in the interval [0, 1]. -/
theorem max_ks_in_unit_interval (bins : List ScoreBin) (hv : ValidCounts bins)
    (hb : 0 < total_bad bins) (hg : 0 < total_good bins) :
    0 ≤ max_ks_value bins ∧ max_ks_value bins ≤ 1 := by
  have hne : bins ≠ [] := by
    rintro rfl
    simp [total_bad] at hb
  have hlen := ksCol_length bins
  have hpos : 0 < bins.length := List.length_pos.mpr hne
  have hksne : ksCol bins ≠ [] := List.length_pos.mp (hlen ▸ hpos)
  have hidx : idxmax (ksCol bins) < bins.length := by
    have h := idxmax_lt_length (ksCol bins) hksne
    rwa [hlen] at h
  have hval : max_ks_value bins =
      |((bins.take (idxmax (ksCol bins) + 1)).map fun b => (b.defaultCount : ℚ)).sum
          / (total_bad bins : ℚ)
        - ((bins.take (idxmax (ksCol bins) + 1)).map fun b => (goodCount b : ℚ)).sum
          / (total_good bins : ℚ)| := by
    rw [max_ks_value, max_ks_idx, List.getD_eq_getElem?_getD,
      ksCol_getElem? bins (idxmax (ksCol bins)) hidx]
    rfl
  have hbQ : (0 : ℚ) < ((total_bad bins : ℤ) : ℚ) := by exact_mod_cast hb
  have hgQ : (0 : ℚ) < ((total_good bins : ℤ) : ℚ) := by exact_mod_cast hg
  have hbadpos : ∀ x ∈ bins.map fun b => ((b.defaultCount : ℤ) : ℚ), 0 ≤ x := by
    intro x hx
    rcases List.mem_map.mp hx with ⟨b, hbmem, rfl⟩
    exact_mod_cast (hv b hbmem).1
  have hgoodpos : ∀ x ∈ bins.map fun b => ((goodCount b : ℤ) : ℚ), 0 ≤ x := by
    intro x hx
    rcases List.mem_map.mp hx with ⟨b, hbmem, rfl⟩
    have := (hv b hbmem)
    have hgc : (0 : ℤ) ≤ goodCount b := by
      unfold goodCount
      omega
    exact_mod_cast hgc
  have hbadsum : (0 : ℚ) < (bins.map fun b => ((b.defaultCount : ℤ) : ℚ)).sum := by
    rw [← total_bad_cast]
    exact hbQ
  have hgoodsum : (0 : ℚ) < (bins.map fun b => ((goodCount b : ℤ) : ℚ)).sum := by
    rw [← total_good_cast]
    exact hgQ
  have hbadfrac := take_sum_div_bounds _ hbadpos hbadsum (idxmax (ksCol bins) + 1)
  have hgoodfrac := take_sum_div_bounds _ hgoodpos hgoodsum (idxmax (ksCol bins) + 1)
  rw [← List.map_take] at hbadfrac hgoodfrac
  rw [total_bad_cast, total_good_cast] at hval
  constructor
  · rw [hval]
    exact abs_nonneg _
  · rw [hval, abs_sub_le_iff]
    constructor <;> linarith [hbadfrac.1, hbadfrac.2, hgoodfrac.1, hgoodfrac.2]

/-- C8 witness: the amended theorem applied to a concrete two-bin table. -/
theorem max_ks_in_unit_interval_witness :
    ValidCounts ksWitnessBins ∧ 0 < total_bad ksWitnessBins ∧
    0 < total_good ksWitnessBins ∧
    0 ≤ max_ks_value ksWitnessBins ∧ max_ks_value ksWitnessBins ≤ 1 :=
  ⟨by decide, by decide, by decide,
    max_ks_in_unit_interval ksWitnessBins (by decide) (by decide) (by decide)⟩

/-- C9: with positive total default and non-default counts the final cumulative
fractions are both exactly 1 and the separation at the last bin is exactly 0. -/
theorem ks_last_bin_spec (bins : List ScoreBin) (hb : 0 < total_bad bins)
    (hg : 0 < total_good bins) :
    (cumBadPct bins).getLast? = some 1 ∧ (cumGoodPct bins).getLast? = some 1 ∧
    (ksCol bins).getLast? = some 0 := by
  have hne : bins ≠ [] := by
    rintro rfl
    simp [total_bad] at hb
  have hpos : 0 < bins.length := List.length_pos.mpr hne
  have hbQ : ((total_bad bins : ℤ) : ℚ) ≠ 0 :=
    ne_of_gt (by exact_mod_cast hb)
  have hgQ : ((total_good bins : ℤ) : ℚ) ≠ 0 :=
    ne_of_gt (by exact_mod_cast hg)
  have htake : bins.take (bins.length - 1 + 1) = bins := by
    have h : bins.length - 1 + 1 = bins.length := by omega
    rw [h, List.take_length]
  have hlt : bins.length - 1 < bins.length := by omega
  have hlen1 : (cumBadPct bins).length = bins.length := by
    simp [cumBadPct, cumsum_length]
  have hlen2 : (cumGoodPct bins).length = bins.length := by
    simp [cumGoodPct, cumsum_length]
  refine ⟨?_, ?_, ?_⟩
  · rw [List.getLast?_eq_getElem?, hlen1, cumBadPct_getElem? bins (bins.length - 1) hlt,
      htake, ← total_bad_cast, div_self hbQ]
  · rw [List.getLast?_eq_getElem?, hlen2, cumGoodPct_getElem? bins (bins.length - 1) hlt,
      htake, ← total_good_cast, div_self hgQ]
  · rw [List.getLast?_eq_getElem?, ksCol_length bins,
      ksCol_getElem? bins (bins.length - 1) hlt, htake, ← total_bad_cast,
      ← total_good_cast, div_self hbQ, div_self hgQ, sub_self, abs_zero]

/-- C9 witness: the theorem applied to a concrete two-bin table. -/
theorem ks_last_bin_spec_witness :
    0 < total_bad ksWitnessBins ∧ 0 < total_good ksWitnessBins ∧
    (ksCol ksWitnessBins).getLast? = some 0 :=
  ⟨by decide, by decide, (ks_last_bin_spec ksWitnessBins (by decide) (by decide)).2.2⟩

end Pinfen

namespace Pinfen

/-! ### Lemmas for the cumulative-Lift pipeline -/

theorem df_sorted_length (rows : List ScoreRow) :
    (df_sorted rows).length = rows.length :=
  (List.mergeSort_perm rows _).length_eq

theorem cumLiftCol_length (rows : List ScoreRow) :
    (cumLiftCol rows).length = rows.length := by
  simp [cumLiftCol, cumBadRateCol, cumDefaults, cumSamples, cumsum_length, df_sorted_length]

theorem cumLiftCol_getElem? (rows : List ScoreRow) (k : ℕ) (hk : k < rows.length) :
    (cumLiftCol rows)[k]? = some ((pandasDiv
        ((((df_sorted rows).take (k + 1)).map fun r => (r.defaultCount : ℚ)).sum)
        ((((df_sorted rows).take (k + 1)).map fun r => (r.population : ℚ)).sum)).div
      (total_bad_rate rows)) := by
  have hk2 : k < (df_sorted rows).length := by rw [df_sorted_length]; exact hk
  have h1 : (cumDefaults rows)[k]? =
      some ((((df_sorted rows).take (k + 1)).map fun r => (r.defaultCount : ℚ)).sum) := by
    unfold cumDefaults
    rw [cumsum_getElem? _ k (by simpa using hk2), List.map_take]
  have h2 : (cumSamples rows)[k]? =
      some ((((df_sorted rows).take (k + 1)).map fun r => (r.population : ℚ)).sum) := by
    unfold cumSamples
    rw [cumsum_getElem? _ k (by simpa using hk2), List.map_take]
  have h3 := getElem?_zipWith_some (f := pandasDiv) h1 h2
  unfold cumLiftCol cumBadRateCol
  rw [List.getElem?_map]
  rw [cumDefaults, cumSamples] at h3 ⊢
  rw [h3]
  rfl

/-- C5: the cumulative-Lift computation sorts the bins ascending by midpoint and,
for every prefix of the sorted sequence, reports cumulative bad rate = prefix
default sum over prefix population sum, and cumulative lift = that ratio over
the overall bad rate. -/
theorem cumulative_lift_spec (rows : List ScoreRow) :
    List.Sorted (fun a b : ScoreRow => a.midpoint ≤ b.midpoint) (df_sorted rows) ∧
    (df_sorted rows).Perm rows ∧
    (∀ k, k < rows.length → (cumLiftCol rows)[k]? = some ((pandasDiv
        ((((df_sorted rows).take (k + 1)).map fun r => (r.defaultCount : ℚ)).sum)
        ((((df_sorted rows).take (k + 1)).map fun r => (r.population : ℚ)).sum)).div
      (total_bad_rate rows))) := by
  refine ⟨?_, List.mergeSort_perm rows _, fun k hk => cumLiftCol_getElem? rows k hk⟩
  have h := @List.sorted_mergeSort ScoreRow (fun a b => a.midpoint ≤ b.midpoint)
    (fun a b c h₁ h₂ => by
      simp only [decide_eq_true_eq] at h₁ h₂ ⊢
      omega)
    (fun a b => by
      simp only [Bool.or_eq_true, decide_eq_true_eq]
      omega)
    rows
  unfold df_sorted
  exact h.imp fun hab => by simpa using hab

/-- C5 witness: the theorem applied to a concrete three-row table given out of
midpoint order. -/
theorem cumulative_lift_spec_witness :
    List.Sorted (fun a b : ScoreRow => a.midpoint ≤ b.midpoint) (df_sorted liftWitnessRows) ∧
    (df_sorted liftWitnessRows).Perm liftWitnessRows ∧
    (cumLiftCol liftWitnessRows)[0]? = some ((pandasDiv
        ((((df_sorted liftWitnessRows).take 1).map fun r => (r.defaultCount : ℚ)).sum)
        ((((df_sorted liftWitnessRows).take 1).map fun r => (r.population : ℚ)).sum)).div
      (total_bad_rate liftWitnessRows)) := by
  obtain ⟨h1, h2, h3⟩ := cumulative_lift_spec liftWitnessRows
  exact ⟨h1, h2, h3 0 (by decide)⟩

/-- C10: with positive total population and total default count, the cumulative
lift of the full sorted sequence is exactly 1. -/
theorem cumulative_lift_last_one (rows : List ScoreRow)
    (hp : 0 < total_samples rows) (hd : 0 < total_bad_count rows) :
    (cumLiftCol rows).getLast? = some (.num 1) := by
  have hne : rows ≠ [] := by
    rintro rfl
    simp [total_samples] at hp
  have hpos : 0 < rows.length := List.length_pos.mpr hne
  have hlt : rows.length - 1 < rows.length := by omega
  have hchar := cumLiftCol_getElem? rows (rows.length - 1) hlt
  have hslen : (df_sorted rows).length = rows.length := df_sorted_length rows
  have htake : (df_sorted rows).take (rows.length - 1 + 1) = df_sorted rows := by
    have h : rows.length - 1 + 1 = rows.length := by omega
    rw [h, ← hslen, List.take_length]
  rw [htake] at hchar
  have hperm : (df_sorted rows).Perm rows := List.mergeSort_perm rows _
  have hsumd : ((df_sorted rows).map fun r => (r.defaultCount : ℚ)).sum
      = ((total_bad_count rows : ℤ) : ℚ) := by
    rw [(hperm.map fun r => (r.defaultCount : ℚ)).sum_eq, total_bad_count,
      intCast_listSum, List.map_map]
    rfl
  have hsump : ((df_sorted rows).map fun r => (r.population : ℚ)).sum
      = ((total_samples rows : ℤ) : ℚ) := by
    rw [(hperm.map fun r => (r.population : ℚ)).sum_eq, total_samples,
      intCast_listSum, List.map_map]
    rfl
  rw [hsumd, hsump] at hchar
  have hPQ : ((total_samples rows : ℤ) : ℚ) ≠ 0 := ne_of_gt (by exact_mod_cast hp)
  have hDQ : ((total_bad_count rows : ℤ) : ℚ) ≠ 0 := ne_of_gt (by exact_mod_cast hd)
  have hratio : pandasDiv ((total_bad_count rows : ℤ) : ℚ) ((total_samples rows : ℤ) : ℚ)
      = .num (((total_bad_count rows : ℤ) : ℚ) / ((total_samples rows : ℤ) : ℚ)) := by
    unfold pandasDiv
    rw [if_neg hPQ]
  have hq : ((total_bad_count rows : ℤ) : ℚ) / ((total_samples rows : ℤ) : ℚ) ≠ 0 :=
    div_ne_zero hDQ hPQ
  have hfinal : (PVal.num (((total_bad_count rows : ℤ) : ℚ)
        / ((total_samples rows : ℤ) : ℚ))).div (total_bad_rate rows) = .num 1 := by
    rw [total_bad_rate, hratio]
    show pandasDiv _ _ = _
    unfold pandasDiv
    rw [if_neg hq, div_self hq]
  rw [List.getLast?_eq_getElem?, cumLiftCol_length rows, hchar, hratio, hfinal]

/-- C10 witness: the theorem applied to a concrete three-row table. -/
theorem cumulative_lift_last_one_witness :
    0 < total_samples liftWitnessRows ∧ 0 < total_bad_count liftWitnessRows ∧
    (cumLiftCol liftWitnessRows).getLast? = some (.num 1) :=
  ⟨by decide, by decide, cumulative_lift_last_one liftWitnessRows (by decide) (by decide)⟩

/-- C6: a bin with zero population (and a default count between 0 and that
population) is reported with bad rate 0 and lift 0; the division result is the
well-defined value NaN, replaced by 0 by `fillna`, never an error. -/
theorem zero_population_bin (rows : List ScoreRow) (k : ℕ) (r : ScoreRow)
    (hk : rows[k]? = some r) (hp : r.population = 0)
    (h0 : 0 ≤ r.defaultCount) (h1 : r.defaultCount ≤ r.population) :
    (badRateCol rows)[k]? = some (.num 0) ∧ (liftCol rows)[k]? = some (.num 0) := by
  have hd : r.defaultCount = 0 := by omega
  have hnanr : pandasDiv (r.defaultCount : ℚ) (r.population : ℚ) = .nan := by
    rw [hd, hp]
    norm_num [pandasDiv]
  constructor
  · unfold badRateCol badRateColPre
    rw [List.getElem?_map, List.getElem?_map, hk]
    simp [hnanr, PVal.fillna0]
  · unfold liftCol liftColPre
    rw [List.getElem?_map, List.getElem?_map, hk]
    simp [hnanr, div_nan, PVal.fillna0]

/-- C6 witness: the theorem applied to the zero-population row of a concrete
table. -/
theorem zero_population_bin_witness :
    liftWitnessRows[2]? = some ⟨"400–450", 425, 0, 0, 0⟩ ∧
    (badRateCol liftWitnessRows)[2]? = some (.num 0) ∧
    (liftCol liftWitnessRows)[2]? = some (.num 0) := by
  refine ⟨by decide, ?_, ?_⟩
  · exact (zero_population_bin liftWitnessRows 2 ⟨"400–450", 425, 0, 0, 0⟩
      (by decide) rfl (by decide) (by decide)).1
  · exact (zero_population_bin liftWitnessRows 2 ⟨"400–450", 425, 0, 0, 0⟩
      (by decide) rfl (by decide) (by decide)).2

end Pinfen

namespace Pinfen

/-! ### Claim C1: the hardcoded concrete scenario -/

theorem data_total_bad_rate : total_bad_rate data = .num (1931/9989) := by
  norm_num [total_bad_rate, total_samples, total_bad_count, data, pandasDiv]

theorem data_lift_head : (liftCol data)[0]? = some (.num (9989/1931)) := by
  norm_num [liftCol, liftColPre, data, total_bad_rate, total_samples, total_bad_count,
    pandasDiv, PVal.div, PVal.fillna0]

/-- C1 counterexample: on the hardcoded table the populations sum to 9989 (not
10000) and the default counts to 1931 (not 2477); the overall bad rate is not
2477/10000 and the lift of the bin at midpoint 325 is not 10000/2477. -/
theorem lift_concrete_scenario_counterexample :
    total_samples data = 9989 ∧ total_bad_count data = 1931 ∧
    total_bad_rate data ≠ .num (2477/10000) ∧
    (data.map (·.midpoint))[0]? = some 325 ∧
    (liftCol data)[0]? ≠ some (.num (10000/2477)) := by
  refine ⟨by decide, by decide, ?_, by decide, ?_⟩
  · rw [data_total_bad_rate]
    intro h
    rw [PVal.num.injEq] at h
    norm_num at h
  · rw [data_lift_head]
    intro h
    rw [Option.some.injEq, PVal.num.injEq] at h
    norm_num at h

/-- C1 amended: on the hardcoded table the overall bad rate equals 1931/9989
(≈ 0.1933) and the bin at midpoint 325 has lift 9989/1931 (≈ 5.173). -/
theorem lift_concrete_scenario_amended :
    total_bad_rate data = .num (1931/9989) ∧
    (data.map (·.midpoint))[0]? = some 325 ∧
    (liftCol data)[0]? = some (.num (9989/1931)) :=
  ⟨data_total_bad_rate, by decide, data_lift_head⟩

/-! ### Claim C2: loader validation -/

/-- C2: the loader fails with a `DataShapeError` naming every field length
exactly when the parallel fields do not all have equal length, producing no row
table in that case; with all lengths equal it loads the zipped rows. -/
theorem loader_field_length_validation (t : RawTable) :
    (¬ lengthsAllEqual t → loadTable t = .error ⟨field_lengths t⟩) ∧
    (lengthsAllEqual t → loadTable t =
      .ok (zipRows t.labels t.midpoints t.populations t.defaultProbPcts t.defaultCounts)) := by
  have hiff : ((field_lengths t).map Prod.snd).dedup.length = 1 ↔ lengthsAllEqual t := by
    simpa [field_lengths, lengthsAllEqual] using
      dedupFive t.labels.length t.midpoints.length t.populations.length
        t.defaultProbPcts.length t.defaultCounts.length
  constructor
  · intro h
    unfold loadTable
    rw [if_neg]
    rw [hiff]
    exact h
  · intro h
    unfold loadTable
    rw [if_pos (hiff.mpr h)]

/-- C2 witness: a table whose label field has 13 entries while the others have
14 is rejected with the error naming the field lengths. -/
theorem loader_field_length_validation_witness :
    ¬ lengthsAllEqual mismatchTable ∧
    loadTable mismatchTable = .error ⟨field_lengths mismatchTable⟩ :=
  ⟨by decide, (loader_field_length_validation mismatchTable).1 (by decide)⟩

end Pinfen

namespace Pinfen

/-! ### Lemmas for the AUC expansion -/

theorem expandRow_pos_length (r : ScoreRow) :
    ((expandRow r).filter (·.label)).length = r.defaultCount.toNat := by
  unfold expandRow
  rw [List.filter_append]
  simp [List.filter_replicate]

theorem expandRow_neg_length (r : ScoreRow) :
    ((expandRow r).filter fun s => !s.label).length = (nonDefaultCount r).toNat := by
  unfold expandRow
  rw [List.filter_append]
  simp [List.filter_replicate]

theorem expandRow_score_weight (r : ScoreRow) (s : Sample) (hs : s ∈ expandRow r) :
    s.score = defaultProb r ∧ s.weight = 1 := by
  unfold expandRow at hs
  rcases List.mem_append.mp hs with h | h
  · rw [List.eq_of_mem_replicate h]
    exact ⟨rfl, rfl⟩
  · rw [List.eq_of_mem_replicate h]
    exact ⟨rfl, rfl⟩

theorem expandRow_length_int (r : ScoreRow) (h0 : 0 ≤ r.defaultCount)
    (h1 : r.defaultCount ≤ r.population) :
    ((expandRow r).length : ℤ) = r.population := by
  unfold expandRow nonDefaultCount
  simp only [List.length_append, List.length_replicate]
  push_cast
  omega

theorem expandSamples_length_int : ∀ (rows : List ScoreRow), ValidRows rows →
    ((expandSamples rows).length : ℤ) = total_samples rows
  | [], _ => by simp [expandSamples, total_samples]
  | r :: rs, hv => by
    have hr := hv r (by simp)
    have hrs : ValidRows rs := fun x hx => hv x (by simp [hx])
    have ih := expandSamples_length_int rs hrs
    have hlen := expandRow_length_int r hr.1 hr.2
    simp only [expandSamples, List.flatMap_cons, List.length_append, total_samples,
      List.map_cons, List.sum_cons]
    simp only [expandSamples, total_samples] at ih
    push_cast
    omega

theorem sum_weights_of_unit : ∀ (l : List Sample), (∀ s ∈ l, s.weight = 1) →
    (l.map (·.weight)).sum = (l.length : ℚ)
  | [], _ => by simp
  | s :: ss, h => by
    have hs := h s (by simp)
    have hss := sum_weights_of_unit ss fun x hx => h x (by simp [hx])
    simp [hs, hss, add_comm]

/-! ### Claim C7: the expansion emits the right counts -/

/-- C7: for each bin the expansion emits exactly default_count positives and
population − default_count negatives, each with the bin's default rate as score
and weight 1, and the expanded sample set has total size equal to the total
population. -/
theorem expansion_counts (rows : List ScoreRow) (hv : ValidRows rows) :
    (∀ r ∈ rows,
      ((((expandRow r).filter (·.label)).length : ℤ) = r.defaultCount ∧
       (((expandRow r).filter fun s => !s.label).length : ℤ) = nonDefaultCount r ∧
       (∀ s ∈ expandRow r, s.score = defaultProb r ∧ s.weight = 1) ∧
       ((expandRow r).length : ℤ) = r.population)) ∧
    ((expandSamples rows).length : ℤ) = total_samples rows := by
  refine ⟨fun r hr => ?_, expandSamples_length_int rows hv⟩
  have h0 := (hv r hr).1
  have h1 := (hv r hr).2
  refine ⟨?_, ?_, fun s hs => expandRow_score_weight r s hs, expandRow_length_int r h0 h1⟩
  · rw [expandRow_pos_length]
    exact Int.toNat_of_nonneg h0
  · rw [expandRow_neg_length]
    exact Int.toNat_of_nonneg (by unfold nonDefaultCount; omega)

/-- C7 witness: the theorem applied to a concrete three-row table. -/
theorem expansion_counts_witness :
    ValidRows liftWitnessRows ∧
    ((expandSamples liftWitnessRows).length : ℤ) = total_samples liftWitnessRows :=
  ⟨by decide, (expansion_counts liftWitnessRows (by decide)).2⟩

/-! ### Claim C4: weighted and unweighted AUC coincide for unit weights -/

/-- C4: with every sample weight equal to 1 the weighted and the unweighted AUC
coincide exactly — in particular they agree to within 1e-9 — and the expansion
built by the program always carries weight 1 on every sample. -/
theorem auc_weight_agreement (samples : List Sample) (h : UnitWeights samples) :
    auc_with_weight samples = auc_without_weight samples ∧
    |auc_with_weight samples - auc_without_weight samples| ≤ 1 / 1000000000 ∧
    ∀ rows : List ScoreRow, UnitWeights (expandSamples rows) := by
  have hpos : ∀ s ∈ positives samples, s.weight = 1 := fun s hs =>
    h s (List.mem_of_mem_filter hs)
  have hneg : ∀ s ∈ negatives samples, s.weight = 1 := fun s hs =>
    h s (List.mem_of_mem_filter hs)
  have hnum : ((positives samples).map fun p =>
        ((negatives samples).map fun n => p.weight * n.weight * pairScore p.score n.score).sum)
      = ((positives samples).map fun p =>
        ((negatives samples).map fun n => pairScore p.score n.score).sum) :=
    List.map_congr_left fun p hp =>
      congrArg List.sum (List.map_congr_left fun n hn => by
        rw [hpos p hp, hneg n hn, one_mul, one_mul])
  have heq : auc_with_weight samples = auc_without_weight samples := by
    unfold auc_with_weight auc_without_weight
    rw [hnum, sum_weights_of_unit _ hpos, sum_weights_of_unit _ hneg]
  refine ⟨heq, by rw [heq, sub_self, abs_zero]; norm_num, ?_⟩
  intro rows s hs
  rcases List.mem_flatMap.mp hs with ⟨r, _, hsr⟩
  exact (expandRow_score_weight r s hsr).2

/-- C4 witness: the theorem applied to a concrete sample list with unit
weights. -/
theorem auc_weight_agreement_witness :
    UnitWeights aucWitnessSamples ∧
    auc_with_weight aucWitnessSamples = auc_without_weight aucWitnessSamples :=
  ⟨by decide, (auc_weight_agreement aucWitnessSamples (by decide)).1⟩

end Pinfen
